import Mathlib

/-!
Verification of the crime-report extraction pipeline (`parse_crime_pdf.py`
together with the constants of `config.py`).

The Python source is shallowly embedded: strings are Lean `String`s over
their character lists, Python `None`-able cells are `Option String`, Python
dictionaries are association lists updated with dict semantics, and the two
regular expressions used by `normalize_column_name` are modelled by explicit
leftmost-search matchers.  Text is modelled at the ASCII level (the report
tables are ASCII): `str.lower`, `str.strip`, `\w`, `\s`, `\d`, `isdigit`,
`int(...)` and `float(...)` are embedded in their ASCII behaviour, and
`str.replace` is used by the source only with single-character patterns, so
it is embedded as a character map/filter.  `float` special literals
(`inf`/`nan`) and digit-group underscores are outside the rational-number
model.
-/

namespace PGCrime

/-! ### Character classes (ASCII fragment of Python's str methods and `re`) -/

/-- ASCII uppercase letter (code points 65-90). -/
def isAsciiUpper (c : Char) : Bool := 65 ≤ c.toNat && c.toNat ≤ 90

/-- ASCII lowercase letter (code points 97-122). -/
def isAsciiLower (c : Char) : Bool := 97 ≤ c.toNat && c.toNat ≤ 122

/-- ASCII digit, the characters matched by `\d` and accepted by `int()`. -/
def isAsciiDigit (c : Char) : Bool := 48 ≤ c.toNat && c.toNat ≤ 57

/-- The whitespace characters recognised by Python's `str.strip()` and `\s`
(ASCII fragment): space, tab, newline, carriage return, vertical tab, form
feed. -/
def isPySpace (c : Char) : Bool :=
  c.toNat = 32 || c.toNat = 9 || c.toNat = 10 || c.toNat = 13 ||
    c.toNat = 11 || c.toNat = 12

/-- A word character in the sense of `\w` (ASCII fragment):
letter, digit or underscore (code point 95). -/
def isWordChar (c : Char) : Bool :=
  isAsciiUpper c || isAsciiLower c || isAsciiDigit c || c.toNat = 95

/-- A character that can appear in a canonical (already normalized)
column identifier: lowercase letter, digit or underscore. -/
def identChar (c : Char) : Bool :=
  isAsciiLower c || isAsciiDigit c || c.toNat = 95

/-- `str.lower` (ASCII model): `Char.toLower` maps exactly the basic latin
letters `A`-`Z` to `a`-`z`, which is Python's `str.lower` on ASCII text. -/
def pyLower (s : String) : String := String.mk (s.toList.map Char.toLower)

/-- Strip `isPySpace` characters from both ends of a character list. -/
def stripList (l : List Char) : List Char :=
  ((l.dropWhile isPySpace).reverse.dropWhile isPySpace).reverse

/-- `str.strip()` (no argument): remove surrounding whitespace. -/
def pyStrip (s : String) : String := String.mk (stripList s.toList)

/-- `str.replace(old, new)` for a single-character pattern and a
single-character replacement (the only replacing form used by the source,
for `col.replace('\n', ' ')`): replace every occurrence. -/
def replaceChar (old new : Char) (s : String) : String :=
  String.mk (s.toList.map (fun c => if c = old then new else c))

/-- `str.replace(old, '')` for a single-character pattern (used by the
source as `value_str.replace('+', '').replace('%', '')`): delete every
occurrence. -/
def removeChar (old : Char) (s : String) : String :=
  String.mk (s.toList.filter (fun c => c ≠ old))

/-- Boolean prefix test on character lists (`str.startswith`). -/
def leadsWith : List Char → List Char → Bool
  | [], _ => true
  | _ :: _, [] => false
  | p :: ps, c :: cs => p = c && leadsWith ps cs

/-- `str.startswith(pat)`. -/
def pyStartsWith (s pat : String) : Bool := leadsWith pat.toList s.toList

/-- Substring containment, Python's `pat in s`. -/
def pyContains (s pat : String) : Bool :=
  (List.range (s.toList.length + 1)).any (fun i => leadsWith pat.toList (s.toList.drop i))

/-- Numeric value of a list of ASCII digits. -/
def digitsVal (l : List Char) : Nat :=
  l.foldl (fun acc c => 10 * acc + (c.toNat - 48)) 0

/-- Nonempty and all ASCII digits: `str.isdigit()` restricted to ASCII
(Python's `isdigit` also accepts some non-ASCII digit characters; those are
outside the ASCII text model). -/
def isDigitList (l : List Char) : Bool := !l.isEmpty && l.all isAsciiDigit

/-- A sign character, as in `value_str.lstrip('+-')`. -/
def isSignChar (c : Char) : Bool := c = '+' || c = '-'

/-! ### The two regular expressions of `normalize_column_name`

`date_pattern = r'(?:Monday|...|Sunday)\s+(\d{1,2})/(\d{1,2})'` searched
case-insensitively, and `ytd_pattern = r'ytd\s+(\d{2})\s+'` searched on the
lowercased, stripped name.  Both are embedded as leftmost-search matchers:
the searcher tries to match at each position from the left; at a given
position each piece is deterministic (`\s+` is a maximal whitespace run
because it is followed by `\d`, which is disjoint from `\s`; `\d{1,2}` is
greedy with one backtracking step into the following literal `/`). -/

/-- The seven weekday names of the date pattern, lowercased, in the
alternation order of the pattern. -/
def weekdayNames : List (List Char) :=
  ["monday".toList, "tuesday".toList, "wednesday".toList, "thursday".toList,
   "friday".toList, "saturday".toList, "sunday".toList]

/-- Case-insensitive literal match of `w` (given lowercased) at the head of
`l`; on success return the rest of `l`. -/
def dropCaseless : List Char → List Char → Option (List Char)
  | [], l => some l
  | _ :: _, [] => none
  | w :: ws, c :: cs => if Char.toLower c = w then dropCaseless ws cs else none

/-- Try the weekday alternation at the head of `l`. -/
def dropWeekday (l : List Char) : Option (List Char) :=
  weekdayNames.foldr (fun w acc => (dropCaseless w l).orElse (fun _ => acc)) none

/-- Match `(\d{1,2})/(\d{1,2})` at the head of `l`, returning the two
captured numbers.  `\d{1,2}` is greedy: two digits are preferred, with a
backtracking step when the following literal `/` does not fit; the second
group ends the pattern, so it simply takes two digits when available. -/
def matchMD : List Char → Option (Nat × Nat)
  | c1 :: c2 :: c3 :: rest =>
    if isAsciiDigit c1 then
      if isAsciiDigit c2 then
        -- month took two digits; the next character must be the slash
        if c3 = '/' then
          match rest with
          | d1 :: d2 :: _ =>
            if isAsciiDigit d1 then
              if isAsciiDigit d2 then some (digitsVal [c1, c2], digitsVal [d1, d2])
              else some (digitsVal [c1, c2], digitsVal [d1])
            else none
          | d1 :: [] => if isAsciiDigit d1 then some (digitsVal [c1, c2], digitsVal [d1]) else none
          | [] => none
        else none
      else if c2 = '/' then
        -- month took one digit
        if isAsciiDigit c3 then
          match rest with
          | d2 :: _ =>
            if isAsciiDigit d2 then some (digitsVal [c1], digitsVal [c3, d2])
            else some (digitsVal [c1], digitsVal [c3])
          | [] => some (digitsVal [c1], digitsVal [c3])
        else none
      else none
    else none
  | _ => none

/-- Attempt the whole date pattern at the current position. -/
def matchWeekdayAt (l : List Char) : Option (Nat × Nat) :=
  match dropWeekday l with
  | none => none
  | some rest =>
    match rest with
    | [] => none
    | c :: _ =>
      if isPySpace c then matchMD (rest.dropWhile isPySpace) else none

/-- `re.search` for the date pattern: leftmost matching position wins. -/
def searchWeekday : List Char → Option (Nat × Nat)
  | [] => none
  | l@(_ :: t) =>
    match matchWeekdayAt l with
    | some md => some md
    | none => searchWeekday t

/-- After `ytd` and its following whitespace run: the pattern needs two
digits and then at least one more whitespace character. -/
def ytdAfterSpaces (rest : List Char) : Option (Char × Char) :=
  match rest.dropWhile isPySpace with
  | d1 :: d2 :: c2 :: _ =>
    if isAsciiDigit d1 && isAsciiDigit d2 && isPySpace c2 then some (d1, d2) else none
  | _ => none

/-- Attempt `ytd\s+(\d{2})\s+` at the current position, returning the two
captured digit characters. -/
def matchYtdAt : List Char → Option (Char × Char)
  | 'y' :: 't' :: 'd' :: rest =>
    match rest with
    | [] => none
    | c :: _ => if isPySpace c then ytdAfterSpaces rest else none
  | _ => none

/-- `re.search` for the ytd pattern: leftmost matching position wins. -/
def searchYtd : List Char → Option (Char × Char)
  | [] => none
  | l@(_ :: t) =>
    match matchYtdAt l with
    | some d => some d
    | none => searchYtd t

/-! ### Calendar validity and ISO formatting (`datetime(y, m, d)` and
`strftime("%Y-%m-%d")`) -/

/-- Gregorian leap year, as implemented by `datetime`. -/
def isLeapYear (y : Nat) : Bool := y % 4 = 0 && (y % 100 ≠ 0 || y % 400 = 0)

/-- Days in a month of a year. -/
def daysInMonth (y m : Nat) : Nat :=
  if m = 2 then (if isLeapYear y then 29 else 28)
  else if m = 4 || m = 6 || m = 9 || m = 11 then 30
  else 31

/-- `datetime(year, month, day)` succeeds exactly on these arguments
(`datetime.MINYEAR = 1`, `datetime.MAXYEAR = 9999`). -/
def validDate (y m d : Nat) : Bool :=
  1 ≤ y && y ≤ 9999 && 1 ≤ m && m ≤ 12 && 1 ≤ d && d ≤ daysInMonth y m

/-- Decimal digits of `n`, padded on the left with `'0'` to width `w`. -/
def padNum (w n : Nat) : String :=
  let s := toString n
  String.mk (List.replicate (w - s.toList.length) '0') ++ s

/-- `date.strftime("%Y-%m-%d")`: four-digit year, two-digit month and day
(the source only ever formats four-digit reference years; `%Y` on years
below 1000 is platform-dependent in CPython and outside the model). -/
def isoFormat (y m d : Nat) : String :=
  padNum 4 y ++ "-" ++ padNum 2 m ++ "-" ++ padNum 2 d

/-! ### `normalize_column_name` -/

/-- The generic fallback rule of `normalize_column_name` applied to the
lowercased, stripped name:
`re.sub(r'[^\w\s-]', '', _)` — keep only word characters, whitespace and
hyphens. -/
def pySub1 (l : List Char) : List Char :=
  l.filter (fun c => isWordChar c || isPySpace c || c = '-')

/-- A character collapsed by `re.sub(r'[-\s]+', '_', _)`. -/
def isDashSpace (c : Char) : Bool := c = '-' || isPySpace c

/-- `re.sub(r'[-\s]+', '_', _)`: every maximal run of hyphens/whitespace
becomes a single underscore.  The boolean records whether the previous
character belonged to such a run. -/
def sub2Aux : Bool → List Char → List Char
  | _, [] => []
  | inRun, c :: t =>
    if isDashSpace c then
      if inRun then sub2Aux true t else '_' :: sub2Aux true t
    else c :: sub2Aux false t

/-- The two-substitution generic fallback of `normalize_column_name`,
applied after lowercasing and stripping. -/
def genericFallback (col : String) : String :=
  String.mk (sub2Aux false (pySub1 (pyStrip (pyLower col)).toList))

/-- `normalize_column_name` after the weekday-date rule: the lowercase/strip,
the `prev. 7` prefix rule, the ytd rule, the fixed `column_mapping`, and the
generic fallback, in source order. -/
def restNormalize (col : String) : String :=
  if pyStartsWith (pyStrip (pyLower col)) "prev. 7" then "prev_seven_day_total"
  else
    match searchYtd (pyStrip (pyLower col)).toList with
    | some (d1, d2) => String.mk ['y', 't', 'd', '_', '2', '0', d1, d2]
    | none =>
      if pyStrip (pyLower col) = "7-day totals" then "seven_day_total"
      else if pyStrip (pyLower col) = "+/-" then "change"
      else if pyStrip (pyLower col) = "% change" then "percent_change"
      else genericFallback col

/-- `normalize_column_name(col_name, reference_year)`, paired with the
number of `logger.warning` calls it makes (the source warns exactly once,
when the weekday-date rule matches an invalid calendar date).  The
reference year is taken as given; the source's fallback to the current
calendar year when `reference_year` is falsy belongs to the external
reference clock. -/
def normalizeColumnFull (col : String) (referenceYear : Nat) : String × Nat :=
  match searchWeekday col.toList with
  | some (m, d) =>
    if validDate referenceYear m d then (isoFormat referenceYear m d, 0)
    else (restNormalize col, 1)
  | none => (restNormalize col, 0)

/-- The normalized name returned by `normalize_column_name`. -/
def normalize_column_name (col : String) (referenceYear : Nat) : String :=
  (normalizeColumnFull col referenceYear).1

/-! ### Values, records, and cell coercion (`parse_crime_table`) -/

/-- A Python value as stored in a parsed record: `None`, a string, an
integer, or a float (floats modelled as rationals; every float value the
coercer can build is a finite decimal). -/
inductive PyVal where
  | vNone : PyVal
  | vStr (s : String) : PyVal
  | vInt (n : Int) : PyVal
  | vFloat (q : ℚ) : PyVal
deriving DecidableEq, Repr

/-- `config.SKIP_EMPTY_ROWS`. -/
def SKIP_EMPTY_ROWS : Bool := true

/-- `config.STRIP_WHITESPACE`. -/
def STRIP_WHITESPACE : Bool := true

/-- Split one optional leading sign off a character list, returning the
sign as `1` or `-1` together with the remainder. -/
def splitSign (l : List Char) : Int × List Char :=
  match l with
  | c :: t => if c = '+' then (1, t) else if c = '-' then (-1, t) else (1, l)
  | [] => (1, [])

/-- Python `int(s)` on a text argument (ASCII model): surrounding
whitespace, then at most one sign, then a nonempty run of digits. -/
def pyInt (s : String) : Option Int :=
  let sl := splitSign (stripList s.toList)
  if isDigitList sl.2 then some (sl.1 * (digitsVal sl.2 : Int)) else none

/-- Python `float(s)` on a text argument, restricted to finite decimal
literals: surrounding whitespace, optional sign, digits with an optional
fractional part (at least one mantissa digit), optional exponent.  The
special literals `inf`/`infinity`/`nan` and digit-group underscores are
outside the rational model. -/
def pyFloat (s : String) : Option ℚ :=
  let l := stripList s.toList
  let sl : ℚ × List Char :=
    match l with
    | '+' :: t => (1, t)
    | '-' :: t => (-1, t)
    | t => (1, t)
  let ip := sl.2.takeWhile isAsciiDigit
  let l1 := sl.2.dropWhile isAsciiDigit
  let fl : List Char × List Char :=
    match l1 with
    | '.' :: t => (t.takeWhile isAsciiDigit, t.dropWhile isAsciiDigit)
    | t => ([], t)
  if ip.isEmpty && fl.1.isEmpty then none
  else
    let mantissa : ℚ := (digitsVal ip : ℚ) + (digitsVal fl.1 : ℚ) / ((10 : ℚ) ^ fl.1.length)
    match fl.2 with
    | [] => some (sl.1 * mantissa)
    | e :: t =>
      if e = 'e' || e = 'E' then
        let es : Int × List Char :=
          match t with
          | '+' :: t1 => (1, t1)
          | '-' :: t1 => (-1, t1)
          | t1 => (1, t1)
        let ed := es.2.takeWhile isAsciiDigit
        let t2 := es.2.dropWhile isAsciiDigit
        if ed.isEmpty || !t2.isEmpty then none
        else some (sl.1 * mantissa * (10 : ℚ) ^ (es.1 * (digitsVal ed : Int)))
      else none

/-- The value stored by `parse_crime_table` for one cell of a named column
(lines 161-179 of the source): an absent cell is stored as `None`; for the
`percent_change` column a nonempty trimmed cell has every `'+'` and `'%'`
removed and is parsed as a float; otherwise a cell whose trimmed text,
after `lstrip('+-')`, is all digits is parsed as an integer; on any parse
failure, and in every other case, the original (untrimmed) cell string is
stored. -/
def coerceCell (colName : String) (cell : Option String) : PyVal :=
  match cell with
  | none => PyVal.vNone
  | some v =>
    let value_str := if STRIP_WHITESPACE then pyStrip v else v
    if colName = "percent_change" ∧ value_str ≠ "" then
      let numeric_str := pyStrip (removeChar '%' (removeChar '+' value_str))
      match pyFloat numeric_str with
      | some q => PyVal.vFloat q
      | none => PyVal.vStr v
    else if isDigitList (value_str.toList.dropWhile isSignChar) then
      match pyInt value_str with
      | some n => PyVal.vInt n
      | none => PyVal.vStr v
    else PyVal.vStr v

/-- A parsed record: a Python dict as an ordered association list with
unique keys, updated with dict semantics. -/
abbrev Record := List (String × PyVal)

/-- `record[k] = v`: overwrite in place when the key exists, append
otherwise. -/
def dictSet : Record → String → PyVal → Record
  | [], k, v => [(k, v)]
  | (k', v') :: t, k, v => if k' = k then (k, v) :: t else (k', v') :: dictSet t k v

/-- Dictionary lookup. -/
def dictLookup : Record → String → Option PyVal
  | [], _ => none
  | (k', v) :: t, k => if k' = k then some v else dictLookup t k

/-- One header cell of the table, as prepared by `parse_crime_table`: a
falsy (absent or empty) cell becomes the empty column name, any other cell
has embedded line breaks replaced by spaces, is trimmed, and is passed to
`normalize_column_name`. -/
def cleanHeaderCell (referenceYear : Nat) (c : Option String) : String :=
  match c with
  | none => ""
  | some s =>
    if s = "" then ""
    else normalize_column_name (pyStrip (replaceChar '\n' ' ' s)) referenceYear

/-- A cell that counts as empty for the all-empty-row check:
`cell is None or str(cell).strip() == ''`. -/
def cellBlank (c : Option String) : Bool :=
  match c with
  | none => true
  | some s => pyStrip s = ""

/-- The cell-assignment loop of `parse_crime_table`
(`for i, value in enumerate(row[1:], start=1)`): each cell at position `i`
is stored, coerced, under the column name at position `i` when that
position exists and the name is non-empty. -/
def assignCells (cols : List String) : Nat → List (Option String) → Record → Record
  | _, [], r => r
  | i, c :: rest, r =>
    let r' :=
      if i < cols.length then
        let cn := cols.getD i ""
        if cn ≠ "" then dictSet r cn (coerceCell cn c) else r
      else r
    assignCells cols (i + 1) rest r'

/-- Build the record of one data row of `parse_crime_table`, or `none` when
the row is skipped: an entirely empty/absent row is skipped (with
`SKIP_EMPTY_ROWS` set), and a row whose first cell is absent, empty or
blank after trimming is skipped. -/
def buildRecord (cols : List String) (row : List (Option String)) : Option Record :=
  if (row.isEmpty || row.all cellBlank) && SKIP_EMPTY_ROWS then none
  else
    match row.head?.getD none with
    | none => none
    | some s =>
      if s = "" ∨ pyStrip s = "" then none
      else
        let offense := if STRIP_WHITESPACE then pyStrip s else s
        some (assignCells cols 1 (row.drop 1) [("offense_type", PyVal.vStr offense)])

/-- `parse_crime_table(table, report_year)`: tables with fewer than two
rows produce no records; otherwise row 1 is the header (row 0 is a title),
its cells become the normalized column names, and the rows from index 2 on
are built into records. -/
def parse_crime_table (table : List (List (Option String))) (reportYear : Nat) :
    List Record :=
  if table.length < 2 then []
  else
    let header := table.getD 1 []
    let columns := header.map (cleanHeaderCell reportYear)
    (table.drop 2).filterMap (buildRecord columns)

/-! ### `calculate_summary` -/

/-- The summary dictionary assembled by `calculate_summary`. -/
structure Summary where
  total_offense_types : Nat
  violent_crimes : List String
  property_crimes : List String
  violent_crime_count : Nat
  property_crime_count : Nat
deriving DecidableEq, Repr

/-- The fixed keyword list of `calculate_summary`. -/
def violent_keywords : List String :=
  ["murder", "sex", "rape", "assault", "robbery", "shooting", "carjacking"]

/-- `record.get('offense_type', '')`, as a string.  The records this
program builds always store a string under `offense_type`; a non-string
value there would make the subsequent `.lower()` raise in Python, so the
summary theorems restrict to string-valued (or absent) `offense_type`. -/
def offenseString (r : Record) : String :=
  match dictLookup r "offense_type" with
  | some (PyVal.vStr s) => s
  | _ => ""

/-- The classification test of `calculate_summary`: some violent keyword is
a substring of the lowercased offense type. -/
def isViolent (r : Record) : Bool :=
  violent_keywords.any (fun k => pyContains (pyLower (offenseString r)) k)

/-- One iteration of the categorisation loop of `calculate_summary`,
appending the lowercased offense type to the matching bucket. -/
def summaryStep (acc : List String × List String) (r : Record) :
    List String × List String :=
  let ot := pyLower (offenseString r)
  if violent_keywords.any (fun k => pyContains ot k) then (acc.1 ++ [ot], acc.2)
  else (acc.1, acc.2 ++ [ot])

/-- `calculate_summary(records)`. -/
def calculate_summary (records : List Record) : Summary :=
  let vp := records.foldl summaryStep ([], [])
  { total_offense_types := records.length
    violent_crimes := vp.1
    property_crimes := vp.2
    violent_crime_count := vp.1.length
    property_crime_count := vp.2.length }

/-! ### The table loop of `parse_pdf`

The document handed to `parse_pdf` is modelled through the interface the
core consumes (spec §6): a page exposes its detected tables, and opening
the document may fail fatally.  The per-table call to `parse_crime_table`
sits inside `try ... except Exception`, so it is abstracted here as an
arbitrary table-parsing function that either returns records or raises —
the theorems then cover every exception behaviour that the per-table
handler can face.  Date extraction and the final file renaming are I/O
against external collaborators and are not part of the table loop. -/

/-- The error message built by the per-table `except` handler:
`f"Error parsing table {table_num} on page {page_num}: {e}"`. -/
def tableErrorMsg (tableNum pageNum : Nat) (e : String) : String :=
  "Error parsing table " ++ toString tableNum ++ " on page " ++ toString pageNum
    ++ ": " ++ e

/-- The nested page/table loop of `parse_pdf` (source lines 272-287):
pages and tables are numbered from 1; a table that parses contributes its
records, a table that raises contributes one error message and no
records. -/
def parse_pdf_tables
    (parseTable : List (List (Option String)) → Except String (List Record))
    (pages : List (List (List (List (Option String))))) :
    List Record × List String :=
  (pages.enumFrom 1).foldl
    (fun acc page =>
      ((page.2).enumFrom 1).foldl
        (fun acc2 tab =>
          match parseTable tab.2 with
          | Except.ok rs => (acc2.1 ++ rs, acc2.2)
          | Except.error e => (acc2.1, acc2.2 ++ [tableErrorMsg tab.1 page.1 e]))
        acc)
    ([], [])

/-- The parts of the `parse_pdf` result decided by the table loop. -/
structure ParseOutcome where
  crime_statistics : List Record
  summary : Summary
  parse_errors : List String
deriving DecidableEq, Repr

/-- `parse_pdf`, over an already-attempted document open: a fatal open
failure propagates (the outer `except` re-raises), otherwise the table
loop runs over every page and the result is assembled with the summary of
the accumulated records. -/
def parse_pdf
    (parseTable : List (List (Option String)) → Except String (List Record))
    (openedDoc : Except String (List (List (List (List (Option String)))))) :
    Except String ParseOutcome :=
  match openedDoc with
  | Except.error e => Except.error e
  | Except.ok pages =>
    let rs := parse_pdf_tables parseTable pages
    Except.ok
      { crime_statistics := rs.1
        summary := calculate_summary rs.1
        parse_errors := rs.2 }

/-! ### Spec-side definitions

These follow the specification's words, for comparison with the embedded
source. -/

/-- Spec side (§4.3): "if the trimmed string (after stripping an optional
leading sign) consists only of digits, parse as an integer" — at most one
leading sign, applied to an already-trimmed string. -/
def specTrimmedSignDigits (s : String) : Option Int :=
  let sl := splitSign s.toList
  if isDigitList sl.2 then some (sl.1 * (digitsVal sl.2 : Int)) else none

/-- Spec side (§4.5): the violent bucket — the offense types, lowercased,
of the records matching some violent keyword, in order. -/
def specViolentBucket (records : List Record) : List String :=
  (records.filter isViolent).map (fun r => pyLower (offenseString r))

/-- Spec side (§4.5): the property bucket — the offense types, lowercased,
of the records matching no violent keyword, in order. -/
def specPropertyBucket (records : List Record) : List String :=
  (records.filter (fun r => !isViolent r)).map (fun r => pyLower (offenseString r))

/-- Spec side (§4.4): a data row whose first cell is absent, or blank after
trimming, or which is entirely empty — the rows the Record Builder must
skip. -/
def firstCellBlank (row : List (Option String)) : Bool :=
  match row.head?.getD none with
  | none => true
  | some s => s = "" || pyStrip s = ""

/-! ## Helper lemmas -/

lemma dropWhile_eq_self_of (p : Char → Bool) (l : List Char)
    (h : ∀ c ∈ l, p c = false) : l.dropWhile p = l := by
  cases l with
  | nil => rfl
  | cons c t => simp [List.dropWhile_cons, h c (List.mem_cons_self c t)]

lemma stripList_eq_self_of (l : List Char) (h : ∀ c ∈ l, isPySpace c = false) :
    stripList l = l := by
  unfold stripList
  rw [dropWhile_eq_self_of _ _ h, dropWhile_eq_self_of _ _ (by
    intro c hc
    exact h c (by simpa using hc)), List.reverse_reverse]

lemma digit_not_space {c : Char} (h : isAsciiDigit c = true) :
    isPySpace c = false := by
  unfold isAsciiDigit at h
  unfold isPySpace
  simp only [Bool.and_eq_true, decide_eq_true_eq] at h
  simp only [Bool.or_eq_false_iff, decide_eq_false_iff_not]
  omega

lemma sign_not_space {c : Char} (h : isSignChar c = true) :
    isPySpace c = false := by
  unfold isSignChar at h
  simp only [Bool.or_eq_true, decide_eq_true_eq] at h
  rcases h with h | h <;> subst h <;> decide

lemma digit_not_sign {c : Char} (h : isAsciiDigit c = true) :
    isSignChar c = false := by
  unfold isSignChar
  simp only [Bool.or_eq_false_iff, decide_eq_false_iff_not]
  constructor <;> intro he <;> subst he <;> exact absurd h (by decide)

/-! ## C9: short tables and blank-first-cell rows -/

/-- C9: a raw table with fewer than 2 rows yields no records, and a data
row that is entirely empty/absent or whose first cell is absent or blank
after trimming contributes no record. -/
theorem c9_short_tables_and_blank_rows_skipped :
    (∀ (table : List (List (Option String))) (y : Nat),
        table.length < 2 → parse_crime_table table y = []) ∧
    (∀ (cols : List String) (row : List (Option String)),
        firstCellBlank row = true → buildRecord cols row = none) := by
  constructor
  · intro table y h
    unfold parse_crime_table
    rw [if_pos h]
  · intro cols row h
    unfold buildRecord
    by_cases he : ((row.isEmpty || row.all cellBlank) && SKIP_EMPTY_ROWS) = true
    · rw [if_pos he]
    · rw [if_neg he]
      unfold firstCellBlank at h
      cases hr : row.head?.getD none with
      | none => rfl
      | some s =>
        rw [hr] at h
        simp only [Bool.or_eq_true, decide_eq_true_eq] at h
        exact if_pos h

/-- C9 witness: the two parts applied at concrete inputs. -/
theorem c9_witness :
    parse_crime_table [[some "only a title"]] 2026 = [] ∧
    buildRecord ["x"] [some "   ", some "5"] = none :=
  ⟨c9_short_tables_and_blank_rows_skipped.1 [[some "only a title"]] 2026 (by decide),
   c9_short_tables_and_blank_rows_skipped.2 ["x"] [some "   ", some "5"] (by decide)⟩

/-! ## C3: ytd column names -/

/-- The ytd rule as the source applies it: when the weekday-date rule and
the `prev. 7` rule do not fire and the ytd pattern matches the lowercased
trimmed label, the result embeds the two captured digits after `ytd_20`. -/
lemma restNormalize_ytd (s : String) (d1 d2 : Char)
    (hp : pyStartsWith (pyStrip (pyLower s)) "prev. 7" = false)
    (hy : searchYtd (pyStrip (pyLower s)).toList = some (d1, d2)) :
    restNormalize s = String.mk ['y', 't', 'd', '_', '2', '0', d1, d2] := by
  unfold restNormalize
  rw [if_neg (by simp [hp]), hy]

/-- C3 (amended): the ytd pattern of the source requires whitespace after
the two-digit year (`ytd\s+(\d{2})\s+`); whenever it matches — and no
earlier rule fires — the result is `ytd_20` followed by the two captured
digits. -/
theorem c3_ytd_needs_trailing_whitespace :
    ∀ (s : String) (y : Nat) (d1 d2 : Char),
      searchWeekday s.toList = none →
      pyStartsWith (pyStrip (pyLower s)) "prev. 7" = false →
      searchYtd (pyStrip (pyLower s)).toList = some (d1, d2) →
      normalize_column_name s y = String.mk ['y', 't', 'd', '_', '2', '0', d1, d2] := by
  intro s y d1 d2 hw hp hy
  unfold normalize_column_name normalizeColumnFull
  rw [hw]
  exact restNormalize_ytd s d1 d2 hp hy

/-- C3 counterexample: the exact trimmed label `"YTD 25"` has no whitespace
after the year, so it is not matched by the ytd rule and falls to the
generic rule, yielding `"ytd_25"`, not `"ytd_2025"`. -/
theorem c3_counterexample_exact_label :
    normalize_column_name "YTD 25" 2026 = "ytd_25" ∧
    normalize_column_name "YTD 25" 2026 ≠ "ytd_2025" := by decide

/-- C3 witness: a label with text after the year normalizes to `ytd_2025`. -/
theorem c3_witness : normalize_column_name "YTD 25 Thru 2/8" 2026 = "ytd_2025" := by
  exact (c3_ytd_needs_trailing_whitespace "YTD 25 Thru 2/8" 2026 '2' '5'
    (by decide) (by decide) (by decide)).trans (by decide)

/-! ## C6: weekday-date column names -/

/-- C6 (amended): when the weekday-date pattern matches with captures
`(m, d)`, a valid calendar date for the reference year yields exactly the
ISO `YYYY-MM-DD` name with no warning; an invalid one does not crash but
records exactly one warning and falls through to the remaining rules
(`prev. 7` prefix, ytd, fixed vocabulary, generic fallback). -/
theorem c6_weekday_date_normalization :
    ∀ (s : String) (y m d : Nat),
      searchWeekday s.toList = some (m, d) →
      (validDate y m d = true → normalizeColumnFull s y = (isoFormat y m d, 0)) ∧
      (validDate y m d = false → normalizeColumnFull s y = (restNormalize s, 1)) := by
  intro s y m d h
  constructor <;> intro hv <;> unfold normalizeColumnFull <;> rw [h] <;> simp [hv]

/-- C6 counterexample: on `"Prev. 7 Monday 2/30"` the invalid date falls
through to the `prev. 7` prefix rule, not to the generic fallback rule. -/
theorem c6_counterexample_fallthrough_not_generic :
    normalizeColumnFull "Prev. 7 Monday 2/30" 2026 = ("prev_seven_day_total", 1) ∧
    genericFallback "Prev. 7 Monday 2/30" ≠ "prev_seven_day_total" := by decide

/-- C6 witness: both branches at concrete labels — `"Monday 2/2"` with
reference year 2026 gives `"2026-02-02"` and no warning; `"Monday 2/30"`
gives the fall-through result with exactly one warning. -/
theorem c6_witness :
    normalizeColumnFull "Monday 2/2" 2026 = ("2026-02-02", 0) ∧
    normalizeColumnFull "Monday 2/30" 2026 = ("monday_230", 1) := by
  constructor
  · exact ((c6_weekday_date_normalization "Monday 2/2" 2026 2 2 (by decide)).1
      (by decide)).trans (by decide)
  · exact ((c6_weekday_date_normalization "Monday 2/30" 2026 2 30 (by decide)).2
      (by decide)).trans (by decide)

/-! ## C4 and C5: cell value coercion -/

lemma strip_flag {α : Sort _} (a b : α) : (if STRIP_WHITESPACE then a else b) = a := rfl

lemma digits_of_isDigitList {l : List Char} (h : isDigitList l = true) :
    ∀ c ∈ l, isAsciiDigit c = true := by
  unfold isDigitList at h
  simp only [Bool.and_eq_true, List.all_eq_true] at h
  exact h.2

/-- The percent-change branch of the coercer, in closed form: the numeric
candidate is the trimmed cell with every `'+'` and `'%'` removed and
trimmed again; a successful float parse is stored, a failed one keeps the
original cell string. -/
lemma coerce_percent_eq (v : String) :
    coerceCell "percent_change" (some v) =
      match pyFloat (pyStrip (removeChar '%' (removeChar '+' (pyStrip v)))) with
      | some q => PyVal.vFloat q
      | none => PyVal.vStr v := by
  unfold coerceCell
  simp only [strip_flag]
  by_cases hv : pyStrip v = ""
  · rw [if_neg (fun hc => hc.2 hv), hv]
    rw [if_neg (by decide)]
    have hf : pyFloat (pyStrip (removeChar '%' (removeChar '+' ("" : String)))) = none := by
      decide
    rw [hf]
  · rw [if_pos ⟨trivial, hv⟩]

/-- When the `lstrip('+-').isdigit()` guard of the source holds, the
trimmed string holds no whitespace at all, so `int()` sees it unchanged and
agrees with the spec-side "one optional sign then digits" parse. -/
lemma pyInt_eq_spec_of_guard (w : String)
    (hg : isDigitList (w.toList.dropWhile isSignChar) = true) :
    pyInt w = specTrimmedSignDigits w := by
  have hns : stripList w.toList = w.toList := by
    apply stripList_eq_self_of
    intro x hx
    rw [← List.takeWhile_append_dropWhile (p := isSignChar) (l := w.toList)] at hx
    rcases List.mem_append.1 hx with h' | h'
    · exact sign_not_space (List.mem_takeWhile_imp h')
    · exact digit_not_space (digits_of_isDigitList hg x h')
  unfold pyInt specTrimmedSignDigits
  rw [hns]

/-- If the remainder after one optional sign is a nonempty digit run, so is
the remainder after `lstrip('+-')`. -/
lemma guard_of_spec_some (l : List Char) (h : isDigitList (splitSign l).2 = true) :
    isDigitList (l.dropWhile isSignChar) = true := by
  cases l with
  | nil => simpa [splitSign] using h
  | cons c t =>
    by_cases hc : c = '+'
    · subst hc
      simp [splitSign] at h
      rw [List.dropWhile_cons_of_pos (by decide : isSignChar '+' = true)]
      rwa [dropWhile_eq_self_of _ _
        (fun x hx => digit_not_sign (digits_of_isDigitList h x hx))]
    · by_cases hm : c = '-'
      · subst hm
        simp [splitSign] at h
        rw [List.dropWhile_cons_of_pos (by decide : isSignChar '-' = true)]
        rwa [dropWhile_eq_self_of _ _
          (fun x hx => digit_not_sign (digits_of_isDigitList h x hx))]
      · have hcs : isSignChar c = false := by simp [isSignChar, hc, hm]
        simp [splitSign, hc, hm] at h
        rwa [List.dropWhile_cons_of_neg (by simp [hcs])]

/-- The non-percent branch of the coercer, compared against the spec's
"single optional sign then digits" parse of the trimmed string: when that
parse succeeds the integer is stored, otherwise the original cell string
is stored unchanged. -/
lemma int_branch_eq (v w : String) :
    (if isDigitList (w.toList.dropWhile isSignChar) then
        match pyInt w with
        | some n => PyVal.vInt n
        | none => PyVal.vStr v
      else PyVal.vStr v) =
      match specTrimmedSignDigits w with
      | some n => PyVal.vInt n
      | none => PyVal.vStr v := by
  by_cases hg : isDigitList (w.toList.dropWhile isSignChar) = true
  · rw [if_pos hg, pyInt_eq_spec_of_guard w hg]
  · rw [if_neg hg]
    have hs : specTrimmedSignDigits w = none := by
      have hfalse : isDigitList (splitSign w.toList).2 = false :=
        Bool.eq_false_iff.mpr (fun h => hg (guard_of_spec_some _ h))
      simp only [specTrimmedSignDigits]
      rw [hfalse]
      simp
    rw [hs]

/-- C4 (amended): for a cell of a non-percent-change field, if the trimmed
cell, after one optional leading sign, is all digits, the parsed integer is
stored; every other cell string is stored as the original cell string
unchanged (not trimmed). -/
theorem c4_integer_coercion_keeps_original :
    ∀ (name v : String), name ≠ "percent_change" →
      coerceCell name (some v) =
        match specTrimmedSignDigits (pyStrip v) with
        | some n => PyVal.vInt n
        | none => PyVal.vStr v := by
  intro name v h
  unfold coerceCell
  simp only [strip_flag]
  rw [if_neg (fun hc => h hc.1)]
  exact int_branch_eq v (pyStrip v)

/-- C4 counterexample: a non-numeric cell with surrounding whitespace is
stored untrimmed, not trimmed. -/
theorem c4_counterexample_untrimmed_kept :
    coerceCell "seven_day_total" (some " abc ") = PyVal.vStr " abc " ∧
    coerceCell "seven_day_total" (some " abc ") ≠ PyVal.vStr "abc" := by decide

/-- C4 witness: the amended theorem applied at a signed integer cell and a
non-numeric cell. -/
theorem c4_witness :
    coerceCell "seven_day_total" (some "+12") = PyVal.vInt 12 ∧
    coerceCell "seven_day_total" (some " 3a ") = PyVal.vStr " 3a " := by
  constructor
  · rw [c4_integer_coercion_keeps_original "seven_day_total" "+12" (by decide)]
    decide
  · rw [c4_integer_coercion_keeps_original "seven_day_total" " 3a " (by decide)]
    decide

/-- C5 (amended): percent-change coercion removes every `'+'` and every
`'%'` (anywhere in the cell, not only a leading `'+'` and a trailing `'%'`)
from the trimmed cell, trims again, and parses the result as a float;
`"+12%"` gives `12.0` and `"-5%"` gives `-5.0`; when the float parse fails
(`"N/A%"`) the original cell string is kept unchanged. -/
theorem c5_percent_change_coercion :
    (∀ v : String,
        coerceCell "percent_change" (some v) =
          match pyFloat (pyStrip (removeChar '%' (removeChar '+' (pyStrip v)))) with
          | some q => PyVal.vFloat q
          | none => PyVal.vStr v) ∧
    coerceCell "percent_change" (some "+12%") = PyVal.vFloat 12 ∧
    coerceCell "percent_change" (some "-5%") = PyVal.vFloat (-5) ∧
    coerceCell "percent_change" (some "N/A%") = PyVal.vStr "N/A%" := by
  refine ⟨coerce_percent_eq, ?_, ?_, ?_⟩
  · rw [coerce_percent_eq]
    have h1 : pyStrip (removeChar '%' (removeChar '+' (pyStrip "+12%"))) = "12" := by decide
    rw [h1]
    have h2 : pyFloat "12" = some 12 := by simp +decide [pyFloat, stripList, digitsVal]
    rw [h2]
  · rw [coerce_percent_eq]
    have h1 : pyStrip (removeChar '%' (removeChar '+' (pyStrip "-5%"))) = "-5" := by decide
    rw [h1]
    have h2 : pyFloat "-5" = some (-5) := by simp +decide [pyFloat, stripList, digitsVal]
    rw [h2]
  · rw [coerce_percent_eq]
    have h1 : pyStrip (removeChar '%' (removeChar '+' (pyStrip "N/A%"))) = "N/A" := by decide
    rw [h1]
    have h2 : pyFloat "N/A" = none := by decide
    rw [h2]

/-- C5 counterexample: a `'+'` in the middle of the cell is also removed,
so `"1+2%"` parses to the float `12.0` instead of keeping the string. -/
theorem c5_counterexample_inner_plus_removed :
    coerceCell "percent_change" (some "1+2%") = PyVal.vFloat 12 ∧
    coerceCell "percent_change" (some "1+2%") ≠ PyVal.vStr "1+2%" := by
  have h := coerce_percent_eq "1+2%"
  have h1 : pyStrip (removeChar '%' (removeChar '+' (pyStrip "1+2%"))) = "12" := by decide
  rw [h1] at h
  have h2 : pyFloat "12" = some 12 := by simp +decide [pyFloat, stripList, digitsVal]
  rw [h2] at h
  exact ⟨h, by rw [h]; intro hx; exact PyVal.noConfusion hx⟩

/-! ## C1: absent cells in named columns -/

lemma dictLookup_dictSet_self (r : Record) (k : String) (v : PyVal) :
    dictLookup (dictSet r k v) k = some v := by
  induction r with
  | nil => simp [dictSet, dictLookup]
  | cons h t ih =>
    obtain ⟨a, b⟩ := h
    by_cases hk : a = k
    · subst hk
      simp [dictSet, dictLookup]
    · simp [dictSet, dictLookup, hk, ih]

lemma dictLookup_dictSet_ne (r : Record) (k k' : String) (v : PyVal) (h : k' ≠ k) :
    dictLookup (dictSet r k v) k' = dictLookup r k' := by
  induction r with
  | nil => simp [dictSet, dictLookup, Ne.symm h]
  | cons hd t ih =>
    obtain ⟨a, b⟩ := hd
    by_cases ha : a = k
    · subst ha
      simp [dictSet, dictLookup, Ne.symm h]
    · simp [dictSet, dictLookup, ha, ih]

/-- One step of the cell-assignment loop. -/
lemma assignCells_cons (cols : List String) (i : Nat) (c : Option String)
    (rest : List (Option String)) (r : Record) :
    assignCells cols i (c :: rest) r =
      assignCells cols (i + 1) rest
        (if i < cols.length ∧ cols.getD i "" ≠ "" then
          dictSet r (cols.getD i "") (coerceCell (cols.getD i "") c) else r) := by
  by_cases h1 : i < cols.length <;> by_cases h2 : cols.getD i "" ≠ "" <;>
    simp [assignCells, h1, h2]

/-- Positions whose column name is never `k` leave the binding of `k`
untouched. -/
lemma assignCells_no_touch (cols : List String) (k : String) :
    ∀ (cells : List (Option String)) (i : Nat) (r : Record),
      (∀ t, t < cells.length → i + t < cols.length → cols.getD (i + t) "" ≠ k) →
      dictLookup (assignCells cols i cells r) k = dictLookup r k := by
  intro cells
  induction cells with
  | nil => intro i r _; rfl
  | cons c rest ih =>
    intro i r hno
    rw [assignCells_cons]
    rw [ih (i + 1) _ (by
      intro t ht hlt
      have he : i + 1 + t = i + (t + 1) := by omega
      rw [he] at hlt ⊢
      exact hno (t + 1) (by simp; omega) hlt)]
    by_cases hc : i < cols.length ∧ cols.getD i "" ≠ ""
    · rw [if_pos hc]
      exact dictLookup_dictSet_ne _ _ _ _
        (Ne.symm (hno 0 (by simp) (by simpa using hc.1)))
    · rw [if_neg hc]

/-- If position `i + t0` carries the name `k`, its cell is absent, and no
later position carries `k`, the final binding of `k` is `None`. -/
lemma assignCells_sets_none (cols : List String) (k : String) :
    ∀ (cells : List (Option String)) (i t0 : Nat) (r : Record),
      t0 < cells.length →
      i + t0 < cols.length →
      cols.getD (i + t0) "" = k →
      k ≠ "" →
      cells.getD t0 none = none →
      (∀ t, t0 < t → t < cells.length → i + t < cols.length →
        cols.getD (i + t) "" ≠ k) →
      dictLookup (assignCells cols i cells r) k = some PyVal.vNone := by
  intro cells
  induction cells with
  | nil => intro i t0 r h1; simp at h1
  | cons c rest ih =>
    intro i t0 r h1 h2 h3 h4 h5 hno
    rw [assignCells_cons]
    cases t0 with
    | zero =>
      have hc : c = none := h5
      have hcond : i < cols.length ∧ cols.getD i "" ≠ "" :=
        ⟨by simpa using h2, by rw [show cols.getD i "" = k from by simpa using h3]; exact h4⟩
      rw [if_pos hcond]
      rw [assignCells_no_touch cols k rest (i + 1) _ (by
        intro t ht hlt
        have he : i + 1 + t = i + (t + 1) := by omega
        rw [he] at hlt ⊢
        exact hno (t + 1) (by omega) (by simp only [List.length_cons]; omega) hlt)]
      have hk : cols.getD i "" = k := by simpa using h3
      rw [hk, hc]
      exact dictLookup_dictSet_self r k _
    | succ t0' =>
      refine ih (i + 1) t0' _ ?_ ?_ ?_ h4 ?_ ?_
      · simp only [List.length_cons] at h1
        omega
      · omega
      · have he : i + 1 + t0' = i + (t0' + 1) := by omega
        rw [he]
        exact h3
      · simpa using h5
      · intro t ht htl hcl
        have he : i + 1 + t = i + (t + 1) := by omega
        rw [he] at hcl ⊢
        exact hno (t + 1) (by omega) (by simp only [List.length_cons]; omega) hcl

/-- Unpack a successfully built record into its defining assignment. -/
lemma buildRecord_eq_some (cols : List String) (row : List (Option String))
    (r : Record) (h : buildRecord cols row = some r) :
    ∃ s, row.head?.getD none = some s ∧ ¬(s = "" ∨ pyStrip s = "") ∧
      r = assignCells cols 1 (row.drop 1)
            [("offense_type", PyVal.vStr (pyStrip s))] := by
  unfold buildRecord at h
  split at h
  · exact absurd h (by simp)
  · split at h
    · exact absurd h (by simp)
    · next s heq =>
      split at h
      · exact absurd h (by simp)
      · next hcond =>
        exact ⟨s, heq, hcond, (Option.some.inj h).symm⟩

/-- C1 (amended): an absent cell at a named column position within the row
is not omitted: the column key is present in the record and — when no later
position carries the same name — is bound to the null value `None`. -/
theorem c1_absent_cell_stored_as_null :
    ∀ (cols : List String) (row : List (Option String)) (r : Record) (i : Nat),
      buildRecord cols row = some r →
      1 ≤ i → i < row.length → i < cols.length →
      cols.getD i "" ≠ "" →
      row.getD i none = none →
      (∀ j, i < j → j < row.length → j < cols.length →
        cols.getD j "" ≠ cols.getD i "") →
      dictLookup r (cols.getD i "") = some PyVal.vNone := by
  intro cols row r i hb h1 h2 h3 h4 h5 hno
  obtain ⟨s, hh, hcond, hr⟩ := buildRecord_eq_some cols row r hb
  subst hr
  apply assignCells_sets_none cols (cols.getD i "") (row.drop 1) 1 (i - 1)
  · simpa [List.length_drop] using (by omega : i - 1 < row.length - 1)
  · have he : 1 + (i - 1) = i := by omega
    rw [he]
    exact h3
  · have he : 1 + (i - 1) = i := by omega
    rw [he]
  · exact h4
  · have he : (row.drop 1).getD (i - 1) none = row.getD i none := by
      simp only [List.getD_eq_getElem?_getD, List.getElem?_drop]
      have he2 : i - 1 + 1 = i := by omega
      rw [Nat.add_comm 1 (i - 1), he2]
    rw [he]
    exact h5
  · intro t ht htl hcl
    have he : 1 + t = t + 1 := by omega
    rw [he] at hcl ⊢
    have hjrow : t + 1 < row.length := by
      simp only [List.length_drop] at htl
      omega
    exact hno (t + 1) (by omega) hjrow hcl

/-- C1 counterexample: a table row with an absent cell under the named
column `seven_day_total` produces a record that contains the key
`seven_day_total` bound to `None` — the field is not omitted. -/
theorem c1_counterexample_null_placeholder :
    parse_crime_table
        [[some "Title"], [some "Offense", some "7-Day Totals"], [some "Theft", none]]
        2026 =
      [[("offense_type", PyVal.vStr "Theft"), ("seven_day_total", PyVal.vNone)]] ∧
    dictLookup [("offense_type", PyVal.vStr "Theft"), ("seven_day_total", PyVal.vNone)]
        "seven_day_total" = some PyVal.vNone := by decide

/-- C1 witness: the amended theorem applied to a concrete row with an
absent cell. -/
theorem c1_witness :
    buildRecord ["", "seven_day_total"] [some "Theft", none] =
      some [("offense_type", PyVal.vStr "Theft"), ("seven_day_total", PyVal.vNone)] ∧
    dictLookup [("offense_type", PyVal.vStr "Theft"), ("seven_day_total", PyVal.vNone)]
        "seven_day_total" = some PyVal.vNone := by
  refine ⟨by decide, ?_⟩
  have h := c1_absent_cell_stored_as_null ["", "seven_day_total"] [some "Theft", none]
    [("offense_type", PyVal.vStr "Theft"), ("seven_day_total", PyVal.vNone)] 1
    (by decide) (by decide) (by decide) (by decide) (by decide) (by decide)
    (fun j hj1 hj2 _ => by simp only [List.length_cons, List.length_nil] at hj2; omega)
  simpa using h

/-! ## C7: per-table error containment in the document pipeline -/

/-- Spec side (§4.4/§4.6): the records a list of tables contributes — each
parsed table in order, a raising table contributing nothing. -/
def specTableRecords (parseTable : List (List (Option String)) → Except String (List Record)) :
    List (List (List (Option String))) → List Record
  | [] => []
  | tab :: rest =>
    (match parseTable tab with
      | Except.ok rs => rs
      | Except.error _ => []) ++ specTableRecords parseTable rest

/-- Spec side: the records of a whole document, in page order. -/
def specDocRecords (parseTable : List (List (Option String)) → Except String (List Record)) :
    List (List (List (List (Option String)))) → List Record
  | [] => []
  | pg :: rest => specTableRecords parseTable pg ++ specDocRecords parseTable rest

/-- Spec side: the error messages of one page's tables — exactly one
message per raising table, naming the page and table number. -/
def specTablesErrors (parseTable : List (List (Option String)) → Except String (List Record))
    (pageNum : Nat) : Nat → List (List (List (Option String))) → List String
  | _, [] => []
  | tNum, tab :: rest =>
    (match parseTable tab with
      | Except.ok _ => []
      | Except.error e => [tableErrorMsg tNum pageNum e]) ++
      specTablesErrors parseTable pageNum (tNum + 1) rest

/-- Spec side: the error messages of a whole document, in page order. -/
def specDocErrors (parseTable : List (List (Option String)) → Except String (List Record)) :
    Nat → List (List (List (List (Option String)))) → List String
  | _, [] => []
  | pNum, pg :: rest =>
    specTablesErrors parseTable pNum 1 pg ++ specDocErrors parseTable (pNum + 1) rest

lemma inner_fold_eq (parseTable : List (List (Option String)) → Except String (List Record))
    (pNum : Nat) :
    ∀ (tabs : List (List (List (Option String)))) (tNum : Nat)
      (acc : List Record × List String),
      (tabs.enumFrom tNum).foldl
        (fun acc2 tab =>
          match parseTable tab.2 with
          | Except.ok rs => (acc2.1 ++ rs, acc2.2)
          | Except.error e => (acc2.1, acc2.2 ++ [tableErrorMsg tab.1 pNum e])) acc =
      (acc.1 ++ specTableRecords parseTable tabs,
        acc.2 ++ specTablesErrors parseTable pNum tNum tabs) := by
  intro tabs
  induction tabs with
  | nil =>
    intro tNum acc
    simp [specTableRecords, specTablesErrors]
  | cons tab rest ih =>
    intro tNum acc
    rw [List.enumFrom_cons]
    simp only [List.foldl_cons]
    cases hpt : parseTable tab with
    | ok rs =>
      simp only [hpt]
      rw [ih (tNum + 1) _]
      simp [specTableRecords, specTablesErrors, hpt, List.append_assoc]
    | error e =>
      simp only [hpt]
      rw [ih (tNum + 1) _]
      simp [specTableRecords, specTablesErrors, hpt, List.append_assoc]

lemma outer_fold_eq (parseTable : List (List (Option String)) → Except String (List Record)) :
    ∀ (pages : List (List (List (List (Option String))))) (pNum : Nat)
      (acc : List Record × List String),
      (pages.enumFrom pNum).foldl
        (fun acc page =>
          ((page.2).enumFrom 1).foldl
            (fun acc2 tab =>
              match parseTable tab.2 with
              | Except.ok rs => (acc2.1 ++ rs, acc2.2)
              | Except.error e => (acc2.1, acc2.2 ++ [tableErrorMsg tab.1 page.1 e]))
            acc) acc =
      (acc.1 ++ specDocRecords parseTable pages,
        acc.2 ++ specDocErrors parseTable pNum pages) := by
  intro pages
  induction pages with
  | nil =>
    intro pNum acc
    simp [specDocRecords, specDocErrors]
  | cons pg rest ih =>
    intro pNum acc
    rw [List.enumFrom_cons]
    simp only [List.foldl_cons]
    rw [inner_fold_eq parseTable pNum pg 1 acc, ih (pNum + 1) _]
    simp [specDocRecords, specDocErrors, List.append_assoc]

lemma parse_pdf_tables_eq
    (parseTable : List (List (Option String)) → Except String (List Record))
    (pages : List (List (List (List (Option String))))) :
    parse_pdf_tables parseTable pages =
      (specDocRecords parseTable pages, specDocErrors parseTable 1 pages) := by
  unfold parse_pdf_tables
  rw [outer_fold_eq parseTable pages 1 ([], [])]
  simp

/-- C7: a raising table contributes zero records and exactly one error
message naming its page and table number, all sibling tables still
contribute their records in order, and only a document open failure
propagates an exception — a successfully opened document always yields a
result. -/
theorem c7_table_errors_contained :
    (∀ (parseTable : List (List (Option String)) → Except String (List Record))
        (e : String), parse_pdf parseTable (Except.error e) = Except.error e) ∧
    (∀ (parseTable : List (List (Option String)) → Except String (List Record))
        (pages : List (List (List (List (Option String))))),
        parse_pdf parseTable (Except.ok pages) =
          Except.ok
            { crime_statistics := specDocRecords parseTable pages
              summary := calculate_summary (specDocRecords parseTable pages)
              parse_errors := specDocErrors parseTable 1 pages }) := by
  constructor
  · intro parseTable e
    rfl
  · intro parseTable pages
    unfold parse_pdf
    simp only [parse_pdf_tables_eq]

/-! ## C8 and C10: summary classification -/

/-- A record whose `offense_type` value, when present, is a string — the
records this parser builds.  (On a non-string value Python's
`record.get('offense_type', '').lower()` would raise, which is outside the
embedding.) -/
def offenseWellTyped (r : Record) : Bool :=
  match dictLookup r "offense_type" with
  | none => true
  | some (PyVal.vStr _) => true
  | some _ => false

lemma summaryStep_eq (acc : List String × List String) (r : Record) :
    summaryStep acc r =
      if isViolent r then (acc.1 ++ [pyLower (offenseString r)], acc.2)
      else (acc.1, acc.2 ++ [pyLower (offenseString r)]) := rfl

lemma summary_fold_eq :
    ∀ (records : List Record) (v p : List String),
      records.foldl summaryStep (v, p) =
        (v ++ specViolentBucket records, p ++ specPropertyBucket records) := by
  intro records
  induction records with
  | nil =>
    intro v p
    simp [specViolentBucket, specPropertyBucket]
  | cons r rest ih =>
    intro v p
    simp only [List.foldl_cons, summaryStep_eq]
    by_cases hv : isViolent r = true
    · rw [if_pos hv, ih]
      simp [specViolentBucket, specPropertyBucket, List.filter_cons, hv,
        List.append_assoc]
    · have hvf : isViolent r = false := Bool.eq_false_iff.mpr hv
      rw [if_neg hv, ih]
      simp [specViolentBucket, specPropertyBucket, List.filter_cons, hvf,
        List.append_assoc]

/-- C8: each record whose lowercased offense type contains a violent
keyword goes to the violent bucket and every other record to the property
bucket, in order; the counts are the bucket lengths and the total is the
record count. -/
theorem c8_summary_buckets_and_counts :
    ∀ records : List Record,
      (∀ r ∈ records, offenseWellTyped r = true) →
      calculate_summary records =
        { total_offense_types := records.length
          violent_crimes := specViolentBucket records
          property_crimes := specPropertyBucket records
          violent_crime_count := (specViolentBucket records).length
          property_crime_count := (specPropertyBucket records).length } := by
  intro records _
  unfold calculate_summary
  rw [summary_fold_eq records [] []]
  simp

/-- C8 witness: the theorem applied to a two-record list with one violent
and one property offense. -/
theorem c8_witness :
    calculate_summary
        [[("offense_type", PyVal.vStr "Robbery")], [("offense_type", PyVal.vStr "Theft")]] =
      { total_offense_types := 2
        violent_crimes := ["robbery"]
        property_crimes := ["theft"]
        violent_crime_count := 1
        property_crime_count := 1 } := by
  rw [c8_summary_buckets_and_counts _ (by decide)]
  decide

/-- C10 (implicit): the bucket lists hold the lowercased offense strings,
not the original-cased ones, and a record without an `offense_type` key is
classified into the property bucket as the empty string. -/
theorem c10_lowercased_buckets_missing_key :
    (∀ s : String,
        (calculate_summary [[("offense_type", PyVal.vStr s)]]).violent_crimes ++
          (calculate_summary [[("offense_type", PyVal.vStr s)]]).property_crimes =
          [pyLower s]) ∧
    (∀ r : Record, dictLookup r "offense_type" = none →
        calculate_summary [r] =
          { total_offense_types := 1
            violent_crimes := []
            property_crimes := [""]
            violent_crime_count := 0
            property_crime_count := 1 }) := by
  constructor
  · intro s
    have hos : offenseString [("offense_type", PyVal.vStr s)] = s := by
      simp [offenseString, dictLookup]
    unfold calculate_summary summaryStep
    simp only [List.foldl_cons, List.foldl_nil, hos]
    cases hv : violent_keywords.any (fun k => pyContains (pyLower s) k) <;> simp [hv]
  · intro r h
    have hos : offenseString r = "" := by simp [offenseString, h]
    have hk : (violent_keywords.any fun k => pyContains (pyLower "") k) = false := by decide
    have hvf : isViolent r = false := by
      unfold isViolent
      rw [hos]
      exact hk
    unfold calculate_summary
    simp only [List.foldl_cons, List.foldl_nil, summaryStep_eq]
    rw [if_neg (by simp [hvf])]
    simp [hos, show pyLower "" = "" from rfl]

/-- C10 witness: a record with no `offense_type` key lands in the property
bucket as the empty string. -/
theorem c10_witness :
    calculate_summary [[("x", PyVal.vInt 3)]] =
      { total_offense_types := 1
        violent_crimes := []
        property_crimes := [""]
        violent_crime_count := 0
        property_crime_count := 1 } :=
  c10_lowercased_buckets_missing_key.2 [("x", PyVal.vInt 3)] (by decide)

/-! ## C2: idempotence of the normalizer -/

lemma toLower_eq_self_of_not_upper {c : Char}
    (h : ¬(65 ≤ c.toNat ∧ c.toNat ≤ 90)) : c.toLower = c := by
  unfold Char.toLower
  exact if_neg (fun hc => h ⟨hc.1, hc.2⟩)

lemma toNat_toLower_upper {c : Char} (h : 65 ≤ c.toNat ∧ c.toNat ≤ 90) :
    (c.toLower).toNat = c.toNat + 32 := by
  unfold Char.toLower
  rw [if_pos ⟨h.1, h.2⟩]
  have hv : (c.toNat + 32).isValidChar := Or.inl (by omega)
  rw [Char.ofNat, dif_pos hv]
  rfl

lemma toLower_not_in_upper (c : Char) :
    ¬(65 ≤ (c.toLower).toNat ∧ (c.toLower).toNat ≤ 90) := by
  by_cases hu : 65 ≤ c.toNat ∧ c.toNat ≤ 90
  · rw [toNat_toLower_upper hu]
    omega
  · rw [toLower_eq_self_of_not_upper hu]
    exact hu

lemma identChar_of_word_not_upper {c : Char} (hw : isWordChar c = true)
    (hnu : ¬(65 ≤ c.toNat ∧ c.toNat ≤ 90)) : identChar c = true := by
  unfold isWordChar isAsciiUpper isAsciiLower isAsciiDigit at hw
  unfold identChar isAsciiLower isAsciiDigit
  simp only [Bool.or_eq_true, Bool.and_eq_true, decide_eq_true_eq] at hw ⊢
  omega

lemma identChar_not_space {c : Char} (h : identChar c = true) :
    isPySpace c = false := by
  unfold identChar isAsciiLower isAsciiDigit at h
  unfold isPySpace
  simp only [Bool.or_eq_true, Bool.and_eq_true, decide_eq_true_eq] at h
  simp only [Bool.or_eq_false_iff, decide_eq_false_iff_not]
  omega

lemma identChar_not_dashSpace {c : Char} (h : identChar c = true) :
    isDashSpace c = false := by
  unfold isDashSpace
  have hsp := identChar_not_space h
  have hdash : (c = '-') = False := by
    simp only [eq_iff_iff, iff_false]
    intro he
    subst he
    exact absurd h (by decide)
  simp [hsp, hdash]

lemma identChar_toLower_self {c : Char} (h : identChar c = true) : c.toLower = c := by
  apply toLower_eq_self_of_not_upper
  unfold identChar isAsciiLower isAsciiDigit at h
  simp only [Bool.or_eq_true, Bool.and_eq_true, decide_eq_true_eq] at h
  omega

lemma identChar_wordChar {c : Char} (h : identChar c = true) : isWordChar c = true := by
  unfold identChar isAsciiLower isAsciiDigit at h
  unfold isWordChar isAsciiUpper isAsciiLower isAsciiDigit
  simp only [Bool.or_eq_true, Bool.and_eq_true, decide_eq_true_eq] at h ⊢
  omega

lemma mk_toList (s : String) : String.mk s.toList = s := rfl

lemma dropCaseless_suffix : ∀ (w l r : List Char), dropCaseless w l = some r → r <:+ l := by
  intro w
  induction w with
  | nil =>
    intro l r h
    unfold dropCaseless at h
    exact (Option.some.inj h) ▸ List.suffix_refl l
  | cons a ws ih =>
    intro l r h
    cases l with
    | nil => exact absurd h (by simp [dropCaseless])
    | cons c cs =>
      unfold dropCaseless at h
      by_cases hc : Char.toLower c = a
      · rw [if_pos hc] at h
        exact (ih cs r h).trans (List.suffix_cons c cs)
      · rw [if_neg hc] at h
        exact absurd h (by simp)

lemma foldr_orElse_some {ws : List (List Char)} {l r : List Char}
    (h : ws.foldr (fun w acc => (dropCaseless w l).orElse (fun _ => acc)) none = some r) :
    ∃ w ∈ ws, dropCaseless w l = some r := by
  induction ws with
  | nil => simp at h
  | cons w ws ih =>
    simp only [List.foldr_cons] at h
    cases hd : dropCaseless w l with
    | some r' =>
      rw [hd] at h
      simp only [Option.orElse] at h
      exact ⟨w, List.mem_cons_self w ws, hd.trans (by simpa using h)⟩
    | none =>
      rw [hd] at h
      simp only [Option.orElse] at h
      obtain ⟨w', hm, hw⟩ := ih h
      exact ⟨w', List.mem_cons_of_mem w hm, hw⟩

lemma dropWeekday_suffix {l r : List Char} (h : dropWeekday l = some r) : r <:+ l := by
  unfold dropWeekday at h
  obtain ⟨w, _, hw⟩ := foldr_orElse_some h
  exact dropCaseless_suffix w l r hw

lemma matchWeekdayAt_none (l : List Char) (h : ∀ c ∈ l, isPySpace c = false) :
    matchWeekdayAt l = none := by
  unfold matchWeekdayAt
  cases hd : dropWeekday l with
  | none => rfl
  | some rest =>
    have hsuf : rest <:+ l := dropWeekday_suffix hd
    cases rest with
    | nil => rfl
    | cons c cs =>
      have hc : isPySpace c = false := h c (hsuf.subset (List.mem_cons_self c cs))
      show (if isPySpace c = true then matchMD ((c :: cs).dropWhile isPySpace) else none) =
        none
      rw [if_neg (by simp [hc])]

lemma searchWeekday_eq_none (l : List Char) (h : ∀ c ∈ l, isPySpace c = false) :
    searchWeekday l = none := by
  induction l with
  | nil => rfl
  | cons c t ih =>
    unfold searchWeekday
    rw [matchWeekdayAt_none (c :: t) h]
    exact ih (fun x hx => h x (List.mem_cons_of_mem c hx))

lemma matchYtdAt_none (l : List Char) (h : ∀ c ∈ l, isPySpace c = false) :
    matchYtdAt l = none := by
  unfold matchYtdAt
  split
  · next rest =>
    cases rest with
    | nil => rfl
    | cons c cs =>
      have hc : isPySpace c = false := h c (by simp)
      show (if isPySpace c = true then ytdAfterSpaces (c :: cs) else none) = none
      rw [if_neg (by simp [hc])]
  · rfl

lemma searchYtd_eq_none (l : List Char) (h : ∀ c ∈ l, isPySpace c = false) :
    searchYtd l = none := by
  induction l with
  | nil => rfl
  | cons c t ih =>
    unfold searchYtd
    rw [matchYtdAt_none (c :: t) h]
    exact ih (fun x hx => h x (List.mem_cons_of_mem c hx))

lemma ytdAfterSpaces_digits {rest : List Char} {d1 d2 : Char}
    (h : ytdAfterSpaces rest = some (d1, d2)) :
    isAsciiDigit d1 = true ∧ isAsciiDigit d2 = true := by
  unfold ytdAfterSpaces at h
  split at h
  · next x e1 e2 e3 rest2 heq =>
    by_cases hd : (isAsciiDigit e1 && isAsciiDigit e2 && isPySpace e3) = true
    · rw [if_pos hd] at h
      have he := Option.some.inj h
      have he1 : e1 = d1 := congrArg Prod.fst he
      have he2 : e2 = d2 := congrArg Prod.snd he
      simp only [Bool.and_eq_true] at hd
      exact ⟨he1 ▸ hd.1.1, he2 ▸ hd.1.2⟩
    · rw [if_neg hd] at h
      exact absurd h (by simp)
  · exact absurd h (by simp)

lemma matchYtdAt_digits {l : List Char} {d1 d2 : Char}
    (h : matchYtdAt l = some (d1, d2)) :
    isAsciiDigit d1 = true ∧ isAsciiDigit d2 = true := by
  unfold matchYtdAt at h
  split at h
  · next rest =>
    cases rest with
    | nil => exact absurd h (by simp)
    | cons c cs =>
      have h2 : (if isPySpace c = true then ytdAfterSpaces (c :: cs) else none) =
          some (d1, d2) := h
      by_cases hc : isPySpace c = true
      · rw [if_pos hc] at h2
        exact ytdAfterSpaces_digits h2
      · rw [if_neg hc] at h2
        exact absurd h2 (by simp)
  · exact absurd h (by simp)

lemma searchYtd_digits {l : List Char} {d1 d2 : Char}
    (h : searchYtd l = some (d1, d2)) :
    isAsciiDigit d1 = true ∧ isAsciiDigit d2 = true := by
  induction l with
  | nil => exact absurd h (by simp [searchYtd])
  | cons c t ih =>
    unfold searchYtd at h
    cases hm : matchYtdAt (c :: t) with
    | some p =>
      rw [hm] at h
      have hp : p = (d1, d2) := Option.some.inj h
      exact matchYtdAt_digits (hp ▸ hm)
    | none =>
      rw [hm] at h
      exact ih h

lemma leadsWith_mem : ∀ {p l : List Char}, leadsWith p l = true → ∀ a ∈ p, a ∈ l := by
  intro p
  induction p with
  | nil =>
    intro l _ a ha
    simp at ha
  | cons x ps ih =>
    intro l h a ha
    cases l with
    | nil => exact absurd h (by simp [leadsWith])
    | cons c cs =>
      unfold leadsWith at h
      simp only [Bool.and_eq_true, decide_eq_true_eq] at h
      rcases List.mem_cons.1 ha with rfl | ha'
      · exact h.1 ▸ List.mem_cons_self c cs
      · exact List.mem_cons_of_mem c (ih h.2 a ha')

lemma mem_stripList {c : Char} {l : List Char} (h : c ∈ stripList l) : c ∈ l := by
  unfold stripList at h
  rw [List.mem_reverse] at h
  have h1 := (List.dropWhile_sublist (l := (l.dropWhile isPySpace).reverse) isPySpace).subset h
  rw [List.mem_reverse] at h1
  exact (List.dropWhile_sublist isPySpace).subset h1

lemma sub2Aux_chars : ∀ (b : Bool) (l : List Char), ∀ c ∈ sub2Aux b l,
    c.toNat = 95 ∨ (c ∈ l ∧ isDashSpace c = false) := by
  intro b l
  induction l generalizing b with
  | nil =>
    intro c hc
    simp [sub2Aux] at hc
  | cons x t ih =>
    intro c hc
    unfold sub2Aux at hc
    by_cases hx : isDashSpace x = true
    · rw [if_pos (by simp [hx])] at hc
      cases b with
      | true =>
        rcases ih true c hc with h | ⟨hm, hd⟩
        · exact Or.inl h
        · exact Or.inr ⟨List.mem_cons_of_mem x hm, hd⟩
      | false =>
        rcases List.mem_cons.1 hc with rfl | hc'
        · exact Or.inl (by decide)
        · rcases ih true c hc' with h | ⟨hm, hd⟩
          · exact Or.inl h
          · exact Or.inr ⟨List.mem_cons_of_mem x hm, hd⟩
    · rw [if_neg (by simp [hx])] at hc
      rcases List.mem_cons.1 hc with rfl | hc'
      · exact Or.inr ⟨List.mem_cons_self c t, by simpa using hx⟩
      · rcases ih false c hc' with h | ⟨hm, hd⟩
        · exact Or.inl h
        · exact Or.inr ⟨List.mem_cons_of_mem x hm, hd⟩

lemma genericFallback_chars (s : String) :
    ∀ c ∈ (genericFallback s).toList, identChar c = true := by
  intro c hc
  have hc' : c ∈ sub2Aux false (pySub1 (pyStrip (pyLower s)).toList) := hc
  rcases sub2Aux_chars false _ c hc' with h95 | ⟨hm, hnd⟩
  · unfold identChar
    simp [h95]
  · have hf := List.mem_filter.1 hm
    have hw : isWordChar c = true := by
      have hp := hf.2
      simp only [Bool.or_eq_true] at hp
      rcases hp with (hw | hsp) | hdash
      · exact hw
      · exact absurd hsp (by
          unfold isDashSpace at hnd
          simp only [Bool.or_eq_false_iff] at hnd
          simp [hnd.2])
      · exact absurd hdash (by
          unfold isDashSpace at hnd
          simp only [Bool.or_eq_false_iff] at hnd
          simp [hnd.1])
    have hml : c ∈ (pyLower s).toList := mem_stripList hf.1
    obtain ⟨c', _, rfl⟩ := List.mem_map.1 hml
    exact identChar_of_word_not_upper hw (toLower_not_in_upper c')

lemma allIdent_restNormalize (s : String) :
    ∀ c ∈ (restNormalize s).toList, identChar c = true := by
  intro c hc
  unfold restNormalize at hc
  split at hc
  · exact (by decide : ∀ x ∈ ("prev_seven_day_total" : String).toList,
      identChar x = true) c hc
  · split at hc
    · next d1 d2 heq =>
      obtain ⟨hd1, hd2⟩ := searchYtd_digits heq
      have hc2 : c ∈ ['y', 't', 'd', '_', '2', '0', d1, d2] := hc
      simp only [List.mem_cons, List.not_mem_nil, or_false] at hc2
      rcases hc2 with rfl | rfl | rfl | rfl | rfl | rfl | rfl | rfl
      · decide
      · decide
      · decide
      · decide
      · decide
      · decide
      · unfold identChar isAsciiLower isAsciiDigit
        unfold isAsciiDigit at hd1
        simp only [Bool.and_eq_true, decide_eq_true_eq] at hd1
        simp only [Bool.or_eq_true, Bool.and_eq_true, decide_eq_true_eq]
        omega
      · unfold identChar isAsciiLower isAsciiDigit
        unfold isAsciiDigit at hd2
        simp only [Bool.and_eq_true, decide_eq_true_eq] at hd2
        simp only [Bool.or_eq_true, Bool.and_eq_true, decide_eq_true_eq]
        omega
    · split at hc
      · exact (by decide : ∀ x ∈ ("seven_day_total" : String).toList,
          identChar x = true) c hc
      · split at hc
        · exact (by decide : ∀ x ∈ ("change" : String).toList,
            identChar x = true) c hc
        · split at hc
          · exact (by decide : ∀ x ∈ ("percent_change" : String).toList,
              identChar x = true) c hc
          · exact genericFallback_chars s c hc

lemma pySub1_eq_self (l : List Char) (h : ∀ c ∈ l, identChar c = true) :
    pySub1 l = l := by
  unfold pySub1
  exact List.filter_eq_self.mpr (fun c hc => by simp [identChar_wordChar (h c hc)])

lemma sub2Aux_eq_self (l : List Char) (h : ∀ c ∈ l, isDashSpace c = false) :
    sub2Aux false l = l := by
  induction l with
  | nil => rfl
  | cons c t ih =>
    unfold sub2Aux
    rw [if_neg (by simp [h c (List.mem_cons_self c t)])]
    rw [ih (fun x hx => h x (List.mem_cons_of_mem c hx))]

lemma pyLower_eq_self (t : String) (h : ∀ c ∈ t.toList, identChar c = true) :
    pyLower t = t := by
  unfold pyLower
  rw [show t.toList.map Char.toLower = t.toList.map id from
    List.map_congr_left (fun c hc => identChar_toLower_self (h c hc)), List.map_id]
  exact mk_toList t

lemma pyStrip_eq_self (t : String) (h : ∀ c ∈ t.toList, identChar c = true) :
    pyStrip t = t := by
  unfold pyStrip
  rw [stripList_eq_self_of _ (fun c hc => identChar_not_space (h c hc))]
  exact mk_toList t

lemma genericFallback_eq_self (t : String) (h : ∀ c ∈ t.toList, identChar c = true) :
    genericFallback t = t := by
  unfold genericFallback
  rw [pyLower_eq_self t h, pyStrip_eq_self t h]
  rw [pySub1_eq_self _ h, sub2Aux_eq_self _ (fun c hc => identChar_not_dashSpace (h c hc))]
  exact mk_toList t

lemma restNormalize_eq_self (t : String) (h : ∀ c ∈ t.toList, identChar c = true) :
    restNormalize t = t := by
  have hnospace : ∀ c ∈ t.toList, isPySpace c = false :=
    fun c hc => identChar_not_space (h c hc)
  have hpw : pyStartsWith t "prev. 7" = false := by
    cases hx : pyStartsWith t "prev. 7" with
    | false => rfl
    | true =>
      have hdot : ('.' : Char) ∈ t.toList :=
        leadsWith_mem (show leadsWith ("prev. 7" : String).toList t.toList = true from hx)
          '.' (by decide)
      exact absurd (h '.' hdot) (by decide)
  have h1 : ¬(t = "7-day totals") := by
    intro he
    rw [he] at h
    exact absurd (h ' ' (by decide)) (by decide)
  have h2 : ¬(t = "+/-") := by
    intro he
    rw [he] at h
    exact absurd (h '+' (by decide)) (by decide)
  have h3 : ¬(t = "% change") := by
    intro he
    rw [he] at h
    exact absurd (h '%' (by decide)) (by decide)
  unfold restNormalize
  rw [pyLower_eq_self t h, pyStrip_eq_self t h]
  rw [if_neg (by simp [hpw])]
  simp only [searchYtd_eq_none t.toList hnospace]
  rw [if_neg h1, if_neg h2, if_neg h3]
  exact genericFallback_eq_self t h

lemma normalizeColumnFull_fixed (t : String) (y : Nat)
    (h : ∀ c ∈ t.toList, identChar c = true) :
    normalizeColumnFull t y = (t, 0) := by
  unfold normalizeColumnFull
  simp only [searchWeekday_eq_none t.toList (fun c hc => identChar_not_space (h c hc))]
  rw [restNormalize_eq_self t h]

/-- C2 (amended): every canonical name the normalizer produces through the
non-date rules (`prev_seven_day_total`, `ytd_20xx`, the fixed vocabulary,
and every generic-fallback output) is a fixed point of the normalizer, for
every reference year, with no warning; ISO-date outputs of the weekday rule
are the exception — renormalizing them replaces their hyphens with
underscores. -/
theorem c2_canonical_non_date_names_fixed :
    ∀ (s : String) (y : Nat),
      normalizeColumnFull (restNormalize s) y = (restNormalize s, 0) := by
  intro s y
  exact normalizeColumnFull_fixed (restNormalize s) y (allIdent_restNormalize s)

/-- C2 counterexample: the ISO-date name `"2026-02-02"` (produced by the
normalizer from `"Monday 2/2"`) is not a fixed point: renormalizing it
yields `"2026_02_02"`. -/
theorem c2_counterexample_iso_date :
    normalize_column_name (normalize_column_name "Monday 2/2" 2026) 2026 = "2026_02_02" ∧
    normalize_column_name (normalize_column_name "Monday 2/2" 2026) 2026 ≠
      normalize_column_name "Monday 2/2" 2026 := by decide

end PGCrime
